import Mathlib

/-!
Verification development for the timeline log visualizer
(`src/log_visualizer.py` of cpp-toolbox/logger).

The Python source is shallowly embedded as computable Lean definitions:
timestamps and all geometric quantities are exact rationals (`ℚ`), the
Python `datetime` values being wall-clock instants measured in seconds;
draw commands are structured records instead of formatted text lines (the
fixed-point decimal rendering of the numeric fields is presentation only);
Python code paths that raise (`TypeError` on comparing `None` with a
timestamp, `IndexError` on an empty run) are modelled with
`Except String`.

`LogSection` / `LogMessage` come from the external log parser
(`logger.parse_logs`); their shape follows the spec's data model (section
3): a section has a name, a start time, an optional end time and an
ordered list of children, each child being a section or a point-event.
-/

/-- A point-event leaf: an instantaneous timestamped text message
(`LogMessage` of the external parser). -/
structure LogMessage where
  timestamp : ℚ
  message : String
  deriving DecidableEq, Repr

mutual

/-- A timed, named section of the trace; `end_time` is absent for an
unterminated section (`LogSection` of the external parser). -/
inductive LogSection : Type where
  | mk (name : String) (start_time : ℚ) (end_time : Option ℚ)
       (children : List LogChild)

/-- A direct child of a section: either a nested section or a point-event. -/
inductive LogChild : Type where
  | sec (s : LogSection)
  | msg (m : LogMessage)

end

def LogSection.name : LogSection → String
  | .mk n _ _ _ => n

def LogSection.start_time : LogSection → ℚ
  | .mk _ st _ _ => st

def LogSection.end_time : LogSection → Option ℚ
  | .mk _ _ et _ => et

def LogSection.children : LogSection → List LogChild
  | .mk _ _ _ cs => cs

/-- Modelled from the spec: `LogSection.duration_microseconds` lives in the
external parser module (`logger.parse_logs`), not under `src/`.  Per the
spec (section 4.3) a section's label carries a duration suffix exactly
"when the section has ended", so the duration is the elapsed time in
microseconds when `end_time` is present and `None` otherwise. -/
def LogSection.duration_microseconds (s : LogSection) : Option ℚ :=
  s.end_time.map (fun e => (e - s.start_time) * 1000000)

/-- One output primitive.  The Python code appends formatted text lines
`generate_rectangle(cx, cy, cz, w, h) | (r, g, b)`,
`get_text_geometry("label", Rectangle((cx, cy, cz), w, h)) | (r, g, b)` and
`generate_rectangle_between_2d((x1, y1), (x2, y2), t) | (r, g, b)`; we keep
the same fields structurally. -/
inductive Command where
  | rect (cx cy cz w h : ℚ) (color : ℚ × ℚ × ℚ)
  | text (label : String) (cx cy cz w h : ℚ) (color : ℚ × ℚ × ℚ)
  | seg (x1 y1 x2 y2 thickness : ℚ) (color : ℚ × ℚ × ℚ)
  deriving DecidableEq, Repr

deriving instance DecidableEq for Except

/-- The immutable state of a constructed `TimelineVisualizer`: the
configuration parameters plus the values derived in `__init__`
(`build_direction_factor`, `start_time`, `end_time`, `total_duration`). -/
structure TimelineVisualizer where
  build_direction_factor : ℚ
  ndc_units_per_second : ℚ
  use_custom_root_section_height : Bool
  custom_root_section_height : ℚ
  base_timeline_position_y : ℚ
  draw_timeline : Bool
  timeline_tick_width : ℚ
  timeline_tick_height : ℚ
  start_time : ℚ
  end_time : ℚ
  total_duration : ℚ
  deriving Repr

/-- `TimelineVisualizer.__init__`.  `custom_start_time` arrives already
parsed to an instant (Python parses the string with `parse_spdlog_time`; a
malformed string is a fatal parse error upstream of this constructor).
`total_duration = (end_time - start_time).total_seconds() * 1e6`; when the
root section has no `end_time` the subtraction raises a `TypeError`. -/
def TimelineVisualizer.init (root_section : LogSection)
    (build_direction : String) (ndc_units_per_second : ℚ)
    (use_custom_root_section_height : Bool)
    (custom_root_section_height : ℚ) (base_timeline_position_y : ℚ)
    (draw_timeline : Bool) (timeline_tick_width timeline_tick_height : ℚ)
    (custom_start_time : Option ℚ) : Except String TimelineVisualizer :=
  let bdf : ℚ := if build_direction = "down" then -1 else 1
  let st : ℚ :=
    match custom_start_time with
    | some t => t
    | none => root_section.start_time
  match root_section.end_time with
  | none => .error "TypeError: unsupported operand types for subtraction of NoneType and datetime"
  | some et =>
      .ok { build_direction_factor := bdf
            ndc_units_per_second := ndc_units_per_second
            use_custom_root_section_height := use_custom_root_section_height
            custom_root_section_height := custom_root_section_height
            base_timeline_position_y := base_timeline_position_y
            draw_timeline := draw_timeline
            timeline_tick_width := timeline_tick_width
            timeline_tick_height := timeline_tick_height
            start_time := st
            end_time := et
            total_duration := (et - st) * 1000000 }

/-- `time_to_x`: elapsed seconds since `start_time` times the configured
scale. -/
def TimelineVisualizer.time_to_x (self : TimelineVisualizer)
    (timestamp : ℚ) : ℚ :=
  (timestamp - self.start_time) * self.ndc_units_per_second

/-- Python float modulo `a % b` for a positive divisor `b`. -/
def float_mod (a b : ℚ) : ℚ := a - b * ⌊a / b⌋

/-- `colorsys.hsv_to_rgb` (Python standard library).  The hue argument the
visualizer supplies is always in `[0, 1)`, where `int(h * 6)` agrees with
the floor. -/
def hsv_to_rgb (h s v : ℚ) : ℚ × ℚ × ℚ :=
  if s = 0 then (v, v, v)
  else
    let i : ℤ := ⌊h * 6⌋
    let f : ℚ := h * 6 - i
    let p := v * (1 - s)
    let q := v * (1 - s * f)
    let t := v * (1 - s * (1 - f))
    match (i % 6).toNat with
    | 0 => (v, t, p)
    | 1 => (q, v, p)
    | 2 => (p, v, t)
    | 3 => (p, q, v)
    | 4 => (t, p, v)
    | _ => (q, p, v)

/-- `generate_color(depth, index)`. -/
def TimelineVisualizer.generate_color (_self : TimelineVisualizer)
    (depth : ℕ) (index : ℕ) : ℚ × ℚ × ℚ :=
  let hue := float_mod ((depth : ℚ) * 0.3 + (index : ℚ) * 0.1) 1
  let saturation : ℚ := 0.7
  let value : ℚ := 0.9 - float_mod ((depth : ℚ) * 0.1) 0.6
  hsv_to_rgb hue saturation value

/-- `get_depth_scale(depth) = 1 / (depth + 1)`. -/
def TimelineVisualizer.get_depth_scale (_self : TimelineVisualizer)
    (depth : ℕ) : ℚ :=
  1 / ((depth : ℚ) + 1)

def TimelineVisualizer.get_event_width_depth_based
    (self : TimelineVisualizer) (root_section_width : ℚ) (depth : ℕ) : ℚ :=
  0.005 * self.get_depth_scale (depth + 1) * (root_section_width / 2)

def TimelineVisualizer.get_event_width_aspect_ratio_based
    (_self : TimelineVisualizer) (section_width : ℚ) : ℚ :=
  max (section_width / 1000) (1 / 1000000)

def TimelineVisualizer.get_section_rect_height_depth_based
    (self : TimelineVisualizer) (root_section_width : ℚ) (depth : ℕ) : ℚ :=
  0.15 * self.get_depth_scale depth * (root_section_width / 2)

def TimelineVisualizer.get_section_rect_height_aspect_ratio_based
    (_self : TimelineVisualizer) (section_width : ℚ) : ℚ :=
  section_width / 4

/-- Zero-padding of a natural number to a fixed digit count, as Python's
fixed-width integer formatting does. -/
def zfill (n : ℕ) (width : ℕ) : String :=
  let s := toString n
  (List.replicate (width - s.length) '0').asString ++ s

/-- Round to the nearest integer, ties to even: the rounding used by
Python when formatting a value with a fixed number of decimals. -/
def roundHalfEven (q : ℚ) : ℤ :=
  let f : ℤ := ⌊q⌋
  let r : ℚ := q - f
  if r < 1 / 2 then f
  else if 1 / 2 < r then f + 1
  else if f % 2 = 0 then f else f + 1

/-- Python's fixed-decimal formatting `f"{q:.df}"` on an exact rational. -/
def fmtFixed (q : ℚ) (d : ℕ) : String :=
  let n := roundHalfEven (q * 10 ^ d)
  let sgn := if n < 0 then "-" else ""
  let m := n.natAbs
  if d = 0 then sgn ++ toString m
  else sgn ++ toString (m / 10 ^ d) ++ "." ++ zfill (m % 10 ^ d) d

/-- `strftime("%H:%M:%S.%f")` of an instant measured in seconds since
midnight: a `datetime` stores whole microseconds, obtained from a
fractional value by round-half-even. -/
def strftime_hms (t : ℚ) : String :=
  let us := (roundHalfEven (t * 1000000)).toNat
  zfill (us / 3600000000 % 24) 2 ++ ":" ++ zfill (us / 60000000 % 60) 2 ++
    ":" ++ zfill (us / 1000000 % 60) 2 ++ "." ++ zfill (us % 1000000) 6

/-- `draw_base_timeline`. -/
def TimelineVisualizer.draw_base_timeline (self : TimelineVisualizer) :
    List Command :=
  [.rect 0 self.base_timeline_position_y 0 2 0.02 (0.5, 0.5, 0.5)]

/-- `draw_ticks`: 11 evenly spaced ticks with formatted timestamp labels.
(The `used_text_areas` bookkeeping list the Python code also appends to is
unused for any logic and is not modelled.) -/
def TimelineVisualizer.draw_ticks (self : TimelineVisualizer) :
    List Command :=
  (List.range 11).flatMap (fun i =>
    let x_pos : ℚ := -1 + (i : ℚ) * 0.2
    let time_fraction : ℚ := (i : ℚ) / 10
    let tick_time_us := time_fraction * self.total_duration
    let tick_timestamp :=
      self.start_time + (roundHalfEven tick_time_us : ℚ) / 1000000
    let time_str := strftime_hms tick_timestamp
    let text_x := x_pos - 0.05
    let text_y := self.base_timeline_position_y -
      0.1 * self.build_direction_factor
    [.rect x_pos self.base_timeline_position_y 0 self.timeline_tick_width
       self.timeline_tick_height (0.4, 0.4, 0.4),
     .text time_str text_x text_y 0.1 0.2 0.16 (0.8, 0.8, 0.8)])

/-- The unit table of `format_duration_us`, in the source's order. -/
def duration_units : List (String × ℚ) :=
  [("µs", 1), ("ms", 1000), ("s", 1000000),
   ("min", 60 * 1000000), ("h", 3600 * 1000000)]

/-- The `for unit, factor in reversed(units)` search: the first (largest)
unit whose factor the duration reaches. -/
def pick_unit (duration_us : ℚ) : Option (String × ℚ) :=
  duration_units.reverse.find? (fun p => decide (p.2 ≤ duration_us))

/-- `format_duration_us` (defined inside `draw_section_rect`). -/
def format_duration_us (duration_us : ℚ) : String :=
  match pick_unit duration_us with
  | some (unit, factor) =>
      let value := duration_us / factor
      if value < 10 then fmtFixed value 3 ++ unit
      else if value < 100 then fmtFixed value 2 ++ unit
      else fmtFixed value 0 ++ unit
  | none => fmtFixed duration_us 0 ++ "µs"

/-- `draw_section_rect`: emits the section rectangle and its label and
returns `(commands, width, height, rect_center_y)`.  `time_to_x` applied
to an absent `end_time` raises in Python (`None - datetime`); the guard in
`process_section` keeps that from happening in a traversal.  The
`hasattr(section, "name")` test in the source is always true for a
`LogSection`, so the label always starts with the section's name. -/
def TimelineVisualizer.draw_section_rect (self : TimelineVisualizer)
    (sect : LogSection) (depth : ℕ) (section_index : ℕ)
    (bottom_y_section : ℚ) (root_section_width : ℚ)
    (height_is_depth_based : Bool) :
    Except String (List Command × ℚ × ℚ × ℚ) :=
  match sect.end_time with
  | none => .error "TypeError: unsupported operand types for subtraction of NoneType and datetime"
  | some et =>
    let x_start := self.time_to_x sect.start_time
    let x_end := self.time_to_x et
    let width := x_end - x_start
    let height0 : ℚ :=
      if height_is_depth_based then
        self.get_section_rect_height_depth_based root_section_width depth
      else
        self.get_section_rect_height_aspect_ratio_based width
    let height : ℚ :=
      if sect.name = "root" then
        if self.use_custom_root_section_height then
          self.custom_root_section_height
        else height0
      else height0
    let rect_center_y :=
      bottom_y_section + (height / 2) * self.build_direction_factor
    let rect_center_x := (x_start + x_end) / 2
    let color := self.generate_color depth section_index
    let duration := sect.duration_microseconds
    let duration_text :=
      match duration with
      | some d => " (" ++ format_duration_us d ++ ")"
      | none => ""
    let label_text := sect.name ++ duration_text
    .ok ([.rect rect_center_x rect_center_y 0 width height color,
          .text label_text rect_center_x rect_center_y 0.01 width height
            (0.9, 0.9, 0.9)],
         width, height, rect_center_y)

/-- The sort key of `sorted(section.children, key=...)`: a point-event's
timestamp, a section's start time. -/
def child_sort_key : LogChild → ℚ
  | .msg m => m.timestamp
  | .sec s => s.start_time

/-- The comparison `sorted` uses on children. -/
def child_le (a b : LogChild) : Prop := child_sort_key a ≤ child_sort_key b

instance : DecidableRel child_le := fun a b => by
  unfold child_le; infer_instance

instance : IsTotal LogChild child_le :=
  ⟨fun a b => le_total (child_sort_key a) (child_sort_key b)⟩

instance : IsTrans LogChild child_le := ⟨fun _ _ _ => le_trans⟩

/-- Python's `sorted(section.children, key=...)` is a stable sort by the
key; `List.insertionSort` computes the same stable reordering. -/
def TimelineVisualizer.children_sorted (_self : TimelineVisualizer)
    (sect : LogSection) : List LogChild :=
  List.insertionSort child_le sect.children

/-- One step of the grouping loop body of `group_event_sequences`: state is
`(event_sequences, current_seq)`. -/
def gr_step (acc : List (List LogMessage) × List LogMessage)
    (child : LogChild) : List (List LogMessage) × List LogMessage :=
  match child with
  | .msg m => (acc.1, acc.2 ++ [m])
  | .sec _ => if acc.2.isEmpty then acc else (acc.1 ++ [acc.2], [])

/-- The trailing `if current_seq: event_sequences.append(current_seq)`. -/
def gr_finalize (acc : List (List LogMessage) × List LogMessage) :
    List (List LogMessage) :=
  if acc.2.isEmpty then acc.1 else acc.1 ++ [acc.2]

/-- `group_event_sequences`. -/
def TimelineVisualizer.group_event_sequences (self : TimelineVisualizer)
    (sect : LogSection) : List (List LogMessage) :=
  gr_finalize ((self.children_sorted sect).foldl gr_step ([], []))

def is_msg : LogChild → Bool
  | .msg _ => true
  | .sec _ => false

def msg_of : LogChild → Option LogMessage
  | .msg m => some m
  | .sec _ => none

/-- The point-events of the leading all-point-event block of a child
list. -/
def leading_msgs (l : List LogChild) : List LogMessage :=
  (l.takeWhile is_msg).filterMap msg_of

/-- Specification of the grouper's output (claim C2): the maximal
contiguous runs of point-events of a child list, a run being cut exactly
where a section child intervenes. -/
def event_runs : List LogChild → List (List LogMessage)
  | [] => []
  | .sec _ :: rest => event_runs rest
  | .msg m :: rest =>
      (m :: leading_msgs rest) :: event_runs (rest.dropWhile is_msg)
termination_by l => l.length
decreasing_by
  all_goals
    have h := (List.dropWhile_sublist (l := rest) is_msg).length_le
    simp
    try omega

/-- The `LogSection` children of a child list (the `isinstance(s,
LogSection)` filter). -/
def sectionsOf : List LogChild → List LogSection
  | [] => []
  | .sec s :: rest => s :: sectionsOf rest
  | .msg _ :: rest => sectionsOf rest

/-- The end times collected by
`[s.end_time for s in parent.children if isinstance(s, LogSection) and
s.end_time <= first_event.timestamp]`.  Python evaluates the comparison
for every section child in order and raises a `TypeError` at the first
one whose `end_time` is `None`. -/
def ends_before_times (children : List LogChild) (t : ℚ) :
    Except String (List ℚ) :=
  match children with
  | [] => .ok []
  | .msg _ :: rest => ends_before_times rest t
  | .sec s :: rest =>
      match s.end_time with
      | none => .error "TypeError: comparison of NoneType and datetime"
      | some e => do
          let es ← ends_before_times rest t
          if e ≤ t then .ok (e :: es) else .ok es

/-- The start times collected by
`[s.start_time for s in parent.children if isinstance(s, LogSection) and
s.start_time >= last_event.timestamp]`; start times are always present. -/
def starts_after_times (children : List LogChild) (t : ℚ) : List ℚ :=
  match children with
  | [] => []
  | .msg _ :: rest => starts_after_times rest t
  | .sec s :: rest =>
      if t ≤ s.start_time then s.start_time :: starts_after_times rest t
      else starts_after_times rest t

/-- Python's `max(xs, default=dflt)`. -/
def pymax (xs : List ℚ) (dflt : ℚ) : ℚ :=
  match xs with
  | [] => dflt
  | x :: rest => rest.foldl max x

/-- Python's `min(xs, default=dflt)` where the default may be `None`
(`min([...], default=parent_section.end_time)`). -/
def pymin (xs : List ℚ) (dflt : Option ℚ) : Option ℚ :=
  match xs with
  | [] => dflt
  | x :: rest => some (rest.foldl min x)

/-- `margin = 0.01 * available_width`. -/
def annotation_margin (available_width : ℚ) : ℚ := 0.01 * available_width

/-- `annotation_rect_width = remaining_space / num_events_in_sequence`
with `remaining_space = available_width - margin * (n - 1)`. -/
def annotation_rect_width (available_width : ℚ) (n : ℕ) : ℚ :=
  (available_width - annotation_margin available_width * ((n : ℚ) - 1)) /
    (n : ℚ)

/-- Lines 253-279 of `draw_event_sequence_annotations`: the available
horizontal span `(availble_area_x_start, available_area_x_end)` bounded by
the surrounding sibling sections.  Indexing `event_sequence[0]` /
`[-1]` on an empty run raises `IndexError`; `time_to_x(None)` (empty
candidate list around a parent with no `end_time`) raises `TypeError`. -/
def TimelineVisualizer.annotation_bounds (self : TimelineVisualizer)
    (event_sequence : List LogMessage) (parent_section : LogSection) :
    Except String (ℚ × ℚ) :=
  match event_sequence with
  | [] => .error "IndexError: list index out of range"
  | first_event :: rest => do
      let last_event := (first_event :: rest).getLast (List.cons_ne_nil _ _)
      let ends ← ends_before_times parent_section.children
        first_event.timestamp
      let left_bound_time := pymax ends parent_section.start_time
      let starts := starts_after_times parent_section.children
        last_event.timestamp
      let right_bound_time := pymin starts parent_section.end_time
      match right_bound_time with
      | none => .error "TypeError: unsupported operand types for subtraction of NoneType and datetime"
      | some rbt => .ok (self.time_to_x left_bound_time, self.time_to_x rbt)

/-- Lines 290-319: the `(annotation_rect_center_y, annotation_rect_height)`
pair, branching on the active sizing mode. -/
def TimelineVisualizer.annotation_row_geometry (self : TimelineVisualizer)
    (depth : ℕ) (parent_section_build_side_y : ℚ)
    (parent_section_rect_width : ℚ) (annotation_rect_width_val : ℚ)
    (root_section_width : ℚ) (height_is_depth_based : Bool) : ℚ × ℚ :=
  if height_is_depth_based then
    (parent_section_build_side_y +
       (self.get_section_rect_height_depth_based root_section_width depth
          * 1.5) * self.build_direction_factor,
     0.08 * self.get_depth_scale depth * (root_section_width / 2))
  else
    (parent_section_build_side_y +
       (self.get_section_rect_height_aspect_ratio_based
          parent_section_rect_width * 1.5) * self.build_direction_factor,
     annotation_rect_width_val / 4)

/-- The `for i, event in enumerate(event_sequence)` loop (lines 321-372):
for each event a label rectangle, its text, and a connector segment from
the label center to the event's true time position. -/
def TimelineVisualizer.annotation_loop (self : TimelineVisualizer)
    (i : ℕ) (events : List LogMessage)
    (availble_area_x_start margin annotation_rect_width_val
     annotation_rect_center_y annotation_rect_height
     parent_section_build_side_y parent_section_rect_height
     parent_section_rect_width root_section_width : ℚ)
    (depth : ℕ) (height_is_depth_based : Bool) : List Command :=
  match events with
  | [] => []
  | event :: rest =>
      let start_x := availble_area_x_start +
        (i : ℚ) * (annotation_rect_width_val + margin)
      let annotation_rect_center_x := start_x + annotation_rect_width_val / 2
      let label_text := event.message.trim
      let event_x := self.time_to_x event.timestamp
      let ey_ew : ℚ × ℚ :=
        if height_is_depth_based then
          (parent_section_build_side_y +
             self.get_section_rect_height_depth_based root_section_width
               depth * self.build_direction_factor,
           self.get_event_width_depth_based root_section_width (depth + 1))
        else
          (parent_section_build_side_y +
             (parent_section_rect_height / 2) * self.build_direction_factor,
           self.get_event_width_aspect_ratio_based
             parent_section_rect_width)
      [.rect annotation_rect_center_x annotation_rect_center_y 0
         annotation_rect_width_val annotation_rect_height (0.4, 0.6, 0.8),
       .text label_text annotation_rect_center_x annotation_rect_center_y
         0.01 annotation_rect_width_val annotation_rect_height (1, 1, 0.8),
       .seg annotation_rect_center_x annotation_rect_center_y event_x
         ey_ew.1 ey_ew.2 (0.6, 0.6, 0.6)] ++
      self.annotation_loop (i + 1) rest availble_area_x_start margin
        annotation_rect_width_val annotation_rect_center_y
        annotation_rect_height parent_section_build_side_y
        parent_section_rect_height parent_section_rect_width
        root_section_width depth height_is_depth_based

/-- `draw_event_sequence_annotations`. -/
def TimelineVisualizer.draw_event_sequence_annotations
    (self : TimelineVisualizer) (event_sequence : List LogMessage)
    (parent_section : LogSection) (depth : ℕ)
    (parent_section_rect_center_y parent_section_rect_width
     parent_section_rect_height root_section_width : ℚ)
    (height_is_depth_based : Bool) : Except String (List Command) := do
  let bounds ← self.annotation_bounds event_sequence parent_section
  let availble_area_x_start := bounds.1
  let available_area_x_end := bounds.2
  let available_width := available_area_x_end - availble_area_x_start
  let num_events_in_sequence := event_sequence.length
  let margin := annotation_margin available_width
  let bw := annotation_rect_width available_width num_events_in_sequence
  let parent_section_build_side_y := parent_section_rect_center_y +
    (parent_section_rect_height / 2) * self.build_direction_factor
  let g := self.annotation_row_geometry depth parent_section_build_side_y
    parent_section_rect_width bw root_section_width height_is_depth_based
  .ok (self.annotation_loop 0 event_sequence availble_area_x_start margin
    bw g.1 g.2 parent_section_build_side_y parent_section_rect_height
    parent_section_rect_width root_section_width depth
    height_is_depth_based)

/-- The standalone point-event marker of the `elif isinstance(child,
LogMessage)` branch of `process_section` (lines 438-470). -/
def TimelineVisualizer.event_marker (self : TimelineVisualizer)
    (child : LogMessage) (depth : ℕ)
    (bottom_y_current_section section_rect_height section_rect_width
     root_section_width : ℚ) (height_is_depth_based : Bool) : Command :=
  let event_center_x := self.time_to_x child.timestamp
  let eh_ew : ℚ × ℚ :=
    if height_is_depth_based then
      (self.get_section_rect_height_depth_based root_section_width
         (depth + 1),
       self.get_event_width_depth_based root_section_width (depth + 1))
    else
      (section_rect_height / 2,
       self.get_event_width_aspect_ratio_based section_rect_width)
  let build_side_y_of_current_section := bottom_y_current_section +
    section_rect_height * self.build_direction_factor
  let event_center_y := build_side_y_of_current_section +
    (eh_ew.1 / 2) * self.build_direction_factor
  .rect event_center_x event_center_y 0 eh_ew.2 eh_ew.1 (1, 0.8, 0.4)

/-- The `for seq in self.group_event_sequences(section)` loop of
`process_section`. -/
def TimelineVisualizer.draw_sequences (self : TimelineVisualizer)
    (seqs : List (List LogMessage)) (sect : LogSection) (depth : ℕ)
    (section_rect_center_y section_rect_width section_rect_height
     root_section_width : ℚ) (height_is_depth_based : Bool) :
    Except String (List Command) :=
  match seqs with
  | [] => .ok []
  | s :: rest => do
      let c ← self.draw_event_sequence_annotations s sect depth
        section_rect_center_y section_rect_width section_rect_height
        root_section_width height_is_depth_based
      let r ← self.draw_sequences rest sect depth section_rect_center_y
        section_rect_width section_rect_height root_section_width
        height_is_depth_based
      .ok (c ++ r)

mutual

/-- `process_section`: the recursive tree walk.  A section with no
`end_time` is skipped (returns no commands); on the first call the
sentinel `root_section_width = -1` is replaced by this section's own
span. -/
def TimelineVisualizer.process_section (self : TimelineVisualizer)
    (sect : LogSection) (depth : ℕ) (bottom_y_current_section : ℚ)
    (section_index_for_labelling : ℕ) (root_section_width : ℚ)
    (height_is_depth_based : Bool) : Except String (List Command) :=
  match sect with
  | .mk _ _ none _ => .ok []
  | .mk nm st (some et) children => do
      let root_w : ℚ :=
        if root_section_width = -1 then
          let x_start := self.time_to_x st
          let x_end := self.time_to_x et
          x_end - x_start
        else root_section_width
      let r ← self.draw_section_rect (.mk nm st (some et) children) depth
        section_index_for_labelling bottom_y_current_section root_w
        height_is_depth_based
      let annCmds ← self.draw_sequences
        (self.group_event_sequences (.mk nm st (some et) children))
        (.mk nm st (some et) children) depth r.2.2.2 r.2.1 r.2.2.1 root_w
        height_is_depth_based
      let non_build_side_y_of_next_section := bottom_y_current_section +
        r.2.2.1 * self.build_direction_factor
      let childCmds ← self.process_children children depth
        non_build_side_y_of_next_section 0 root_w height_is_depth_based
        r.2.1 r.2.2.1 bottom_y_current_section
      .ok (r.1 ++ annCmds ++ childCmds)

/-- The `for child in section.children` loop of `process_section`: child
sections recurse (incrementing the sibling counter used for coloring),
point-events get a standalone marker. -/
def TimelineVisualizer.process_children (self : TimelineVisualizer)
    (children : List LogChild) (depth : ℕ)
    (non_build_side_y_of_next_section : ℚ) (child_section_index : ℕ)
    (root_section_width : ℚ) (height_is_depth_based : Bool)
    (section_rect_width section_rect_height bottom_y_current_section : ℚ) :
    Except String (List Command) :=
  match children with
  | [] => .ok []
  | .sec c :: rest => do
      let cs ← self.process_section c (depth + 1)
        non_build_side_y_of_next_section child_section_index
        root_section_width height_is_depth_based
      let rs ← self.process_children rest depth
        non_build_side_y_of_next_section (child_section_index + 1)
        root_section_width height_is_depth_based section_rect_width
        section_rect_height bottom_y_current_section
      .ok (cs ++ rs)
  | .msg m :: rest => do
      let rs ← self.process_children rest depth
        non_build_side_y_of_next_section child_section_index
        root_section_width height_is_depth_based section_rect_width
        section_rect_height bottom_y_current_section
      .ok (self.event_marker m depth bottom_y_current_section
        section_rect_height section_rect_width root_section_width
        height_is_depth_based :: rs)

end

/-- `generate`: clears the command list, draws the axis when enabled, and
walks the tree from the root at depth 0 with the defaulted trailing
arguments `root_section_width = -1` and `height_is_depth_based = False`. -/
def TimelineVisualizer.generate (self : TimelineVisualizer)
    (root_section : LogSection) : Except String (List Command) := do
  let axis :=
    if self.draw_timeline then
      self.draw_base_timeline ++ self.draw_ticks
    else []
  let body ← self.process_section root_section 0
    (self.base_timeline_position_y +
      (self.timeline_tick_height / 2 + 0.1) * self.build_direction_factor)
    0 (-1) false
  .ok (axis ++ body)

mutual

/-- Instrumentation of the traversal's call structure for claim C10: the
list of `height_is_depth_based` arguments received by this
`process_section` call, by the `draw_section_rect` call it makes, by each
`draw_event_sequence_annotations` call (one per event run), and by the
recursive calls on child sections, in call order.  (It enumerates the
flag argument at every call site of the source; calls skipped after a
raised exception only make the enumeration a superset of the calls
actually performed.) -/
def TimelineVisualizer.process_section_flags (self : TimelineVisualizer)
    (sect : LogSection) (height_is_depth_based : Bool) : List Bool :=
  match sect with
  | .mk _ _ none _ => [height_is_depth_based]
  | .mk nm st (some et) children =>
      height_is_depth_based :: height_is_depth_based ::
        (List.replicate
          (self.group_event_sequences (.mk nm st (some et) children)).length
          height_is_depth_based ++
         self.process_children_flags children height_is_depth_based)

/-- Companion of `process_section_flags` for the child loop. -/
def TimelineVisualizer.process_children_flags (self : TimelineVisualizer)
    (children : List LogChild) (height_is_depth_based : Bool) :
    List Bool :=
  match children with
  | [] => []
  | .sec c :: rest =>
      self.process_section_flags c height_is_depth_based ++
        self.process_children_flags rest height_is_depth_based
  | .msg _ :: rest => self.process_children_flags rest height_is_depth_based

end

/-- The flag arguments of the traversal started by `generate`, whose
`process_section` call leaves `height_is_depth_based` at its default
`False`. -/
def TimelineVisualizer.generate_flags (self : TimelineVisualizer)
    (root_section : LogSection) : List Bool :=
  self.process_section_flags root_section false

/-- Claim C3's left bound: `L` is the latest `end_time` among sibling
sections ending at or before `t0`, or the parent's `start_time` when no
sibling qualifies. -/
def is_left_bound (parent_section : LogSection) (t0 L : ℚ) : Prop :=
  ((∀ s ∈ sectionsOf parent_section.children,
      ∀ e, s.end_time = some e → ¬e ≤ t0) ∧
    L = parent_section.start_time) ∨
  ((∃ s ∈ sectionsOf parent_section.children,
      s.end_time = some L ∧ L ≤ t0) ∧
    ∀ s ∈ sectionsOf parent_section.children,
      ∀ e, s.end_time = some e → e ≤ t0 → e ≤ L)

/-- Claim C3's right bound: `R` is the earliest `start_time` among sibling
sections starting at or after `t1`, or the parent's `end_time` when no
sibling qualifies. -/
def is_right_bound (parent_section : LogSection) (t1 R : ℚ) : Prop :=
  ((∀ s ∈ sectionsOf parent_section.children, ¬t1 ≤ s.start_time) ∧
    parent_section.end_time = some R) ∨
  ((∃ s ∈ sectionsOf parent_section.children,
      s.start_time = R ∧ t1 ≤ R) ∧
    ∀ s ∈ sectionsOf parent_section.children,
      t1 ≤ s.start_time → R ≤ s.start_time)

/-- A concrete visualizer (build direction up, one NDC unit per second,
start at 0) used to instantiate the theorems below. -/
def vizUp : TimelineVisualizer :=
  { build_direction_factor := 1, ndc_units_per_second := 1,
    use_custom_root_section_height := false,
    custom_root_section_height := 0.01, base_timeline_position_y := 0,
    draw_timeline := false, timeline_tick_width := 0.01,
    timeline_tick_height := 0.1, start_time := 0, end_time := 10,
    total_duration := 10000000 }

/-- A concrete visualizer with the root-height override enabled. -/
def vizRootOverride : TimelineVisualizer :=
  { vizUp with use_custom_root_section_height := true,
               custom_root_section_height := 0.25 }

/-- The spec's grouping example: events `[e1, e2]`, a section `S`, event
`[e3]`, in time order. -/
def sectC2 : LogSection :=
  .mk "p" 0 (some 10)
    [.msg ⟨1, "e1"⟩, .msg ⟨2, "e2"⟩, .sec (.mk "S" 3 (some 4) []),
     .msg ⟨5, "e3"⟩]

/-- A parent with one sibling section on each side of a singleton run. -/
def parentC3 : LogSection :=
  .mk "p" 0 (some 10)
    [.sec (.mk "A" 1 (some 2) []), .msg ⟨3, " hi "⟩,
     .sec (.mk "B" 4 (some 5) [])]

/-- A parent holding a two-event run and no sibling sections. -/
def parentC4 : LogSection :=
  .mk "p" 0 (some 8) [.msg ⟨1, "a"⟩, .msg ⟨2, "b"⟩]

def mC5 : LogMessage := ⟨1, "e"⟩

/-- A parent holding a singleton run, used with the aspect-ratio sizing
mode active. -/
def parentC5 : LogSection := .mk "p" 0 (some 4) [.msg mC5]

/-- An unterminated section. -/
def deadC6 : LogSection := .mk "dead" 1 none []

/-- A terminated parent whose children are the unterminated section and a
point-event. -/
def parentC6 : LogSection :=
  .mk "p" 0 (some 10) [.sec deadC6, .msg ⟨2, "boom"⟩]

def sectC7 : LogSection := .mk "s7" 1 (some 3) []

def sectC8 : LogSection := .mk "root" 0 (some 2) []

def rootC10 : LogSection := .mk "r" 0 (some 1) [.msg ⟨0.5, "m"⟩]

/-- C1: for every configured scale `ndc_units_per_second > 0`, `time_to_x`
is strictly increasing in its timestamp argument, and `time_to_x` applied
to the visualizer's `start_time` returns 0. -/
theorem c1_time_to_x_strict_mono (self : TimelineVisualizer)
    (h : 0 < self.ndc_units_per_second) :
    (∀ t1 t2 : ℚ, t1 < t2 → self.time_to_x t1 < self.time_to_x t2) ∧
      self.time_to_x self.start_time = 0 := by
  constructor
  · intro t1 t2 hlt
    unfold TimelineVisualizer.time_to_x
    exact mul_lt_mul_of_pos_right (sub_lt_sub_right hlt self.start_time) h
  · unfold TimelineVisualizer.time_to_x
    ring

theorem c1_witness :
    (0 : ℚ) < vizUp.ndc_units_per_second ∧
      vizUp.time_to_x 1 < vizUp.time_to_x 2 ∧
      vizUp.time_to_x vizUp.start_time = 0 :=
  ⟨by decide, (c1_time_to_x_strict_mono vizUp (by decide)).1 1 2 (by decide),
    (c1_time_to_x_strict_mono vizUp (by decide)).2⟩

/-- C6: the skip of an unterminated section itself works (no commands for
the subtree), but the enclosing pass can still fail: when the parent of
the unterminated section also has a point-event child, the annotation
bound computation compares the unterminated sibling's absent `end_time`
with the event timestamp and raises a `TypeError`, so the pass dies
instead of being a silent no-op. -/
theorem c6_unterminated_section_crash :
    vizUp.process_section deadC6 1 0 0 10 false = .ok [] ∧
    vizUp.process_section parentC6 0 0 0 (-1) false =
      .error "TypeError: comparison of NoneType and datetime" := by
  with_unfolding_all decide

/-- C7: for every rendered section the emitted rectangle's width equals
`time_to_x(end_time) - time_to_x(start_time)`, whatever the sizing-mode
flag and the depth are. -/
theorem c7_section_rect_width (self : TimelineVisualizer)
    (sect : LogSection) (depth section_index : ℕ)
    (bottom_y root_w : ℚ) (height_is_depth_based : Bool) (et : ℚ)
    (he : sect.end_time = some et) :
    ∃ cmds height cy,
      self.draw_section_rect sect depth section_index bottom_y root_w
          height_is_depth_based =
        .ok (cmds, self.time_to_x et - self.time_to_x sect.start_time,
             height, cy) ∧
      ∃ cx color label,
        cmds = [.rect cx cy 0
                  (self.time_to_x et - self.time_to_x sect.start_time)
                  height color,
                .text label cx cy 0.01
                  (self.time_to_x et - self.time_to_x sect.start_time)
                  height (0.9, 0.9, 0.9)] := by
  simp only [TimelineVisualizer.draw_section_rect, he]
  exact ⟨_, _, _, rfl, _, _, _, rfl⟩

theorem c7_witness :
    sectC7.end_time = some 3 ∧
      ∃ cmds height cy,
        vizUp.draw_section_rect sectC7 2 0 0 10 true =
          .ok (cmds, vizUp.time_to_x 3 - vizUp.time_to_x sectC7.start_time,
               height, cy) ∧
        ∃ cx color label,
          cmds = [.rect cx cy 0
                    (vizUp.time_to_x 3 - vizUp.time_to_x sectC7.start_time)
                    height color,
                  .text label cx cy 0.01
                    (vizUp.time_to_x 3 - vizUp.time_to_x sectC7.start_time)
                    height (0.9, 0.9, 0.9)] :=
  ⟨by decide, c7_section_rect_width vizUp sectC7 2 0 0 10 true 3 (by decide)⟩

/-- C8: for every rendered section literally named "root", when the
root-height override is configured the emitted rectangle's height is the
configured constant, in either sizing mode. -/
theorem c8_root_height_override (self : TimelineVisualizer)
    (sect : LogSection) (depth section_index : ℕ)
    (bottom_y root_w : ℚ) (height_is_depth_based : Bool) (et : ℚ)
    (he : sect.end_time = some et) (hname : sect.name = "root")
    (hflag : self.use_custom_root_section_height = true) :
    ∃ cmds width cy,
      self.draw_section_rect sect depth section_index bottom_y root_w
          height_is_depth_based =
        .ok (cmds, width, self.custom_root_section_height, cy) ∧
      ∃ cx color label,
        cmds = [.rect cx cy 0 width self.custom_root_section_height color,
                .text label cx cy 0.01 width
                  self.custom_root_section_height (0.9, 0.9, 0.9)] := by
  simp only [TimelineVisualizer.draw_section_rect, he, hname, hflag,
    if_true, reduceIte]
  exact ⟨_, _, _, rfl, _, _, _, rfl⟩

theorem c8_witness :
    sectC8.end_time = some 2 ∧ sectC8.name = "root" ∧
      vizRootOverride.use_custom_root_section_height = true ∧
      ∃ cmds width cy,
        vizRootOverride.draw_section_rect sectC8 0 0 0 2 false =
          .ok (cmds, width, vizRootOverride.custom_root_section_height,
               cy) ∧
        ∃ cx color label,
          cmds = [.rect cx cy 0 width
                    vizRootOverride.custom_root_section_height color,
                  .text label cx cy 0.01 width
                    vizRootOverride.custom_root_section_height
                    (0.9, 0.9, 0.9)] :=
  ⟨by decide, by decide, by decide,
    c8_root_height_override vizRootOverride sectC8 0 0 0 2 false 2
      (by decide) (by decide) (by decide)⟩

theorem duration_units_reverse :
    duration_units.reverse =
      [("h", (3600 * 1000000 : ℚ)), ("min", 60 * 1000000), ("s", 1000000),
       ("ms", 1000), ("µs", 1)] := rfl

/-- C9: for durations of at least one microsecond the label picks the
largest unit whose converted value is at least 1 and formats it with 3
decimals below 10, 2 decimals below 100, 0 decimals otherwise; with the
spec's four concrete examples. -/
theorem c9_duration_format (d : ℚ) (h1 : (1 : ℚ) ≤ d) :
    (∃ unit factor, (unit, factor) ∈ duration_units ∧ factor ≤ d ∧
      (∀ u f, (u, f) ∈ duration_units → f ≤ d → f ≤ factor) ∧
      format_duration_us d =
        (if d / factor < 10 then fmtFixed (d / factor) 3
         else if d / factor < 100 then fmtFixed (d / factor) 2
         else fmtFixed (d / factor) 0) ++ unit) ∧
    format_duration_us 999 = "999µs" ∧
    format_duration_us 1500 = "1.500ms" ∧
    format_duration_us 65000000 = "1.083min" ∧
    format_duration_us 1000000 = "1.000s" := by
  refine ⟨?_, by with_unfolding_all decide, by with_unfolding_all decide,
    by with_unfolding_all decide, by with_unfolding_all decide⟩
  rcases le_or_lt (3600 * 1000000 : ℚ) d with hH | hH
  · have hp : pick_unit d = some ("h", 3600 * 1000000) := by
      rw [pick_unit, duration_units_reverse,
        List.find?_cons_of_pos _ (by simpa using hH)]
    refine ⟨"h", 3600 * 1000000, by norm_num [duration_units], hH, ?_, ?_⟩
    · intro u f hf _
      simp only [duration_units, List.mem_cons, List.not_mem_nil,
        or_false] at hf
      rcases hf with h | h | h | h | h <;> injection h with h1 h2 <;>
        subst h2 <;> norm_num
    · simp only [format_duration_us, hp]
      split_ifs <;> rfl
  · rcases le_or_lt (60 * 1000000 : ℚ) d with hM | hM
    · have hp : pick_unit d = some ("min", 60 * 1000000) := by
        rw [pick_unit, duration_units_reverse,
          List.find?_cons_of_neg _ (by simpa using not_le.mpr hH),
          List.find?_cons_of_pos _ (by simpa using hM)]
      refine ⟨"min", 60 * 1000000, by norm_num [duration_units], hM, ?_, ?_⟩
      · intro u f hf hfd
        simp only [duration_units, List.mem_cons, List.not_mem_nil,
          or_false] at hf
        rcases hf with h | h | h | h | h <;> injection h with h1 h2 <;>
          subst h2 <;> linarith
      · simp only [format_duration_us, hp]
        split_ifs <;> rfl
    · rcases le_or_lt (1000000 : ℚ) d with hS | hS
      · have hp : pick_unit d = some ("s", 1000000) := by
          rw [pick_unit, duration_units_reverse,
            List.find?_cons_of_neg _ (by simpa using not_le.mpr hH),
            List.find?_cons_of_neg _ (by simpa using not_le.mpr hM),
            List.find?_cons_of_pos _ (by simpa using hS)]
        refine ⟨"s", 1000000, by norm_num [duration_units], hS, ?_, ?_⟩
        · intro u f hf hfd
          simp only [duration_units, List.mem_cons, List.not_mem_nil,
            or_false] at hf
          rcases hf with h | h | h | h | h <;> injection h with h1 h2 <;>
            subst h2 <;> linarith
        · simp only [format_duration_us, hp]
          split_ifs <;> rfl
      · rcases le_or_lt (1000 : ℚ) d with hMs | hMs
        · have hp : pick_unit d = some ("ms", 1000) := by
            rw [pick_unit, duration_units_reverse,
              List.find?_cons_of_neg _ (by simpa using not_le.mpr hH),
              List.find?_cons_of_neg _ (by simpa using not_le.mpr hM),
              List.find?_cons_of_neg _ (by simpa using not_le.mpr hS),
              List.find?_cons_of_pos _ (by simpa using hMs)]
          refine ⟨"ms", 1000, by norm_num [duration_units], hMs, ?_, ?_⟩
          · intro u f hf hfd
            simp only [duration_units, List.mem_cons, List.not_mem_nil,
              or_false] at hf
            rcases hf with h | h | h | h | h <;> injection h with h1 h2 <;>
              subst h2 <;> linarith
          · simp only [format_duration_us, hp]
            split_ifs <;> rfl
        · have hp : pick_unit d = some ("µs", 1) := by
            rw [pick_unit, duration_units_reverse,
              List.find?_cons_of_neg _ (by simpa using not_le.mpr hH),
              List.find?_cons_of_neg _ (by simpa using not_le.mpr hM),
              List.find?_cons_of_neg _ (by simpa using not_le.mpr hS),
              List.find?_cons_of_neg _ (by simpa using not_le.mpr hMs),
              List.find?_cons_of_pos _ (by simpa using h1)]
          refine ⟨"µs", 1, by norm_num [duration_units], h1, ?_, ?_⟩
          · intro u f hf hfd
            simp only [duration_units, List.mem_cons, List.not_mem_nil,
              or_false] at hf
            rcases hf with h | h | h | h | h <;> injection h with h1 h2 <;>
              subst h2 <;> linarith
          · simp only [format_duration_us, hp]
            split_ifs <;> rfl

theorem c9_witness :
    (1 : ℚ) ≤ 1500 ∧ format_duration_us 1500 = "1.500ms" :=
  ⟨by decide, (c9_duration_format 1500 (by decide)).2.2.1⟩

theorem gr_seqs_out (l : List LogChild) :
    ∀ (seqs : List (List LogMessage)) (cur : List LogMessage),
      gr_finalize (l.foldl gr_step (seqs, cur)) =
        seqs ++ gr_finalize (l.foldl gr_step ([], cur)) := by
  induction l with
  | nil =>
      intro seqs cur
      by_cases h : cur.isEmpty <;> simp [gr_finalize, h]
  | cons c rest ih =>
      intro seqs cur
      cases c with
      | msg m =>
          simpa [gr_step] using ih seqs (cur ++ [m])
      | sec s =>
          by_cases h : cur.isEmpty
          · simpa [gr_step, h] using ih seqs cur
          · simp only [List.foldl_cons, gr_step, h, Bool.false_eq_true,
              if_false, List.nil_append]
            rw [ih (seqs ++ [cur]) [], ih [cur] []]
            simp [List.append_assoc]

theorem gr_fold_spec (l : List LogChild) :
    ∀ cur : List LogMessage,
      gr_finalize (l.foldl gr_step ([], cur)) =
        if cur.isEmpty then event_runs l
        else (cur ++ leading_msgs l) :: event_runs (l.dropWhile is_msg) := by
  induction l with
  | nil =>
      intro cur
      by_cases h : cur.isEmpty
      · simp [gr_finalize, h, event_runs]
      · simp [gr_finalize, h, event_runs, leading_msgs]
  | cons c rest ih =>
      intro cur
      cases c with
      | msg m =>
          have hstep : gr_step ([], cur) (.msg m) = ([], cur ++ [m]) := rfl
          have hne : ((cur ++ [m]).isEmpty) = false := by simp
          rw [List.foldl_cons, hstep, ih (cur ++ [m]), hne]
          simp only [Bool.false_eq_true, if_false]
          have hruns : event_runs (.msg m :: rest) =
              (m :: leading_msgs rest) ::
                event_runs (rest.dropWhile is_msg) := by
            rw [event_runs]
          have hlead : leading_msgs (.msg m :: rest) =
              m :: leading_msgs rest := by
            simp [leading_msgs, List.takeWhile_cons, is_msg, msg_of]
          have hdrop : (LogChild.msg m :: rest).dropWhile is_msg =
              rest.dropWhile is_msg := by
            simp [List.dropWhile_cons, is_msg]
          by_cases h : cur.isEmpty
          · have hc : cur = [] := List.isEmpty_iff.mp h
            subst hc
            rw [if_pos h, hruns]
            simp
          · rw [if_neg h, hlead, hdrop]
            simp
      | sec s =>
          have hruns : event_runs (.sec s :: rest) = event_runs rest := by
            rw [event_runs]
          have hlead : leading_msgs (.sec s :: rest) = [] := by
            simp [leading_msgs, List.takeWhile_cons, is_msg]
          have hdrop : (LogChild.sec s :: rest).dropWhile is_msg =
              LogChild.sec s :: rest := by
            simp [List.dropWhile_cons, is_msg]
          by_cases h : cur.isEmpty
          · have hc : cur = [] := List.isEmpty_iff.mp h
            subst hc
            have hstep : gr_step ([], ([] : List LogMessage)) (.sec s) =
                ([], []) := rfl
            rw [List.foldl_cons, hstep, ih [], if_pos h]
            simp [hruns]
          · have hstep : gr_step ([], cur) (.sec s) = ([cur], []) := by
              simp [gr_step, h]
            rw [List.foldl_cons, hstep, gr_seqs_out, ih [], if_neg h,
              hdrop, hruns, hlead]
            simp [gr_finalize, hruns]

theorem event_runs_ne_nil (l : List LogChild) :
    ∀ r ∈ event_runs l, r ≠ [] := by
  induction l using event_runs.induct with
  | case1 => simp [event_runs]
  | case2 s rest ih => rw [event_runs]; exact ih
  | case3 m rest ih =>
      intro r hr
      rw [event_runs] at hr
      rcases List.mem_cons.mp hr with h | h
      · subst h; simp
      · exact ih r h

/-- C2: the grouper returns exactly the maximal contiguous runs of
point-events of the children sorted in ascending temporal order
(`event_runs`), the sorted child list is ascending under the temporal
key, every emitted run is non-empty, and a section without children
yields no runs. -/
theorem c2_group_event_sequences (self : TimelineVisualizer)
    (sect : LogSection) :
    self.group_event_sequences sect =
        event_runs (self.children_sorted sect) ∧
      List.Pairwise child_le (self.children_sorted sect) ∧
      (∀ r ∈ self.group_event_sequences sect, r ≠ []) ∧
      (sect.children = [] → self.group_event_sequences sect = []) := by
  have ha : self.group_event_sequences sect =
      event_runs (self.children_sorted sect) := by
    unfold TimelineVisualizer.group_event_sequences
    rw [gr_fold_spec]
    simp
  refine ⟨ha, ?_, ?_, ?_⟩
  · exact List.sorted_insertionSort child_le sect.children
  · rw [ha]
    exact event_runs_ne_nil _
  · intro h
    unfold TimelineVisualizer.group_event_sequences
      TimelineVisualizer.children_sorted
    rw [h]
    simp [gr_finalize]

theorem c2_witness :
    vizUp.group_event_sequences sectC2 =
        [[⟨1, "e1"⟩, ⟨2, "e2"⟩], [⟨5, "e3"⟩]] ∧
      ([⟨1, "e1"⟩, ⟨2, "e2"⟩] : List LogMessage) ≠ [] :=
  ⟨by with_unfolding_all decide,
   (c2_group_event_sequences vizUp sectC2).2.2.1 [⟨1, "e1"⟩, ⟨2, "e2"⟩]
     (by with_unfolding_all decide)⟩

theorem foldl_max_spec (l : List ℚ) :
    ∀ a : ℚ, (l.foldl max a = a ∨ l.foldl max a ∈ l) ∧
      a ≤ l.foldl max a ∧ ∀ x ∈ l, x ≤ l.foldl max a := by
  induction l with
  | nil => simp
  | cons b rest ih =>
      intro a
      obtain ⟨h1, h2, h3⟩ := ih (max a b)
      rw [List.foldl_cons]
      refine ⟨?_, le_trans (le_max_left a b) h2, ?_⟩
      · rcases h1 with h | h
        · rcases max_choice a b with hm | hm
          · left; rw [h, hm]
          · right; rw [h, hm]; exact List.mem_cons_self _ _
        · right; exact List.mem_cons_of_mem _ h
      · intro x hx
        rcases List.mem_cons.mp hx with rfl | hx
        · exact le_trans (le_max_right a x) h2
        · exact h3 x hx

theorem foldl_min_spec (l : List ℚ) :
    ∀ a : ℚ, (l.foldl min a = a ∨ l.foldl min a ∈ l) ∧
      l.foldl min a ≤ a ∧ ∀ x ∈ l, l.foldl min a ≤ x := by
  induction l with
  | nil => simp
  | cons b rest ih =>
      intro a
      obtain ⟨h1, h2, h3⟩ := ih (min a b)
      rw [List.foldl_cons]
      refine ⟨?_, le_trans h2 (min_le_left a b), ?_⟩
      · rcases h1 with h | h
        · rcases min_choice a b with hm | hm
          · left; rw [h, hm]
          · right; rw [h, hm]; exact List.mem_cons_self _ _
        · right; exact List.mem_cons_of_mem _ h
      · intro x hx
        rcases List.mem_cons.mp hx with rfl | hx
        · exact le_trans h2 (min_le_right a x)
        · exact h3 x hx

theorem pymax_spec (xs : List ℚ) (dflt : ℚ) :
    (xs = [] ∧ pymax xs dflt = dflt) ∨
      (pymax xs dflt ∈ xs ∧ ∀ x ∈ xs, x ≤ pymax xs dflt) := by
  cases xs with
  | nil => exact Or.inl ⟨rfl, rfl⟩
  | cons x rest =>
      right
      obtain ⟨h1, h2, h3⟩ := foldl_max_spec rest x
      have hpy : pymax (x :: rest) dflt = rest.foldl max x := rfl
      rw [hpy]
      constructor
      · rcases h1 with h | h
        · rw [h]; exact List.mem_cons_self _ _
        · exact List.mem_cons_of_mem _ h
      · intro y hy
        rcases List.mem_cons.mp hy with rfl | hy
        · exact h2
        · exact h3 y hy

theorem pymin_spec (xs : List ℚ) (dflt : Option ℚ) :
    (xs = [] ∧ pymin xs dflt = dflt) ∨
      (∃ m, pymin xs dflt = some m ∧ m ∈ xs ∧ ∀ x ∈ xs, m ≤ x) := by
  cases xs with
  | nil => exact Or.inl ⟨rfl, rfl⟩
  | cons x rest =>
      right
      obtain ⟨h1, h2, h3⟩ := foldl_min_spec rest x
      refine ⟨rest.foldl min x, rfl, ?_, ?_⟩
      · rcases h1 with h | h
        · rw [h]; exact List.mem_cons_self _ _
        · exact List.mem_cons_of_mem _ h
      · intro y hy
        rcases List.mem_cons.mp hy with rfl | hy
        · exact h2
        · exact h3 y hy

theorem ends_before_ok (t : ℚ) (children : List LogChild)
    (h : ∀ s ∈ sectionsOf children, s.end_time.isSome) :
    ∃ es, ends_before_times children t = .ok es ∧
      ∀ e : ℚ, (e ∈ es ↔
        ∃ s ∈ sectionsOf children, s.end_time = some e ∧ e ≤ t) := by
  induction children with
  | nil => exact ⟨[], rfl, by simp [sectionsOf]⟩
  | cons c rest ih =>
      cases c with
      | msg m =>
          obtain ⟨es, hok, hmem⟩ := ih (by simpa [sectionsOf] using h)
          exact ⟨es, by simpa [ends_before_times] using hok,
            by simpa [sectionsOf] using hmem⟩
      | sec s =>
          have hs : s.end_time.isSome := h s (by simp [sectionsOf])
          obtain ⟨e0, he0⟩ := Option.isSome_iff_exists.mp hs
          obtain ⟨es, hok, hmem⟩ := ih (by
            intro s' hs'
            exact h s' (by simp [sectionsOf, hs']))
          by_cases hle : e0 ≤ t
          · refine ⟨e0 :: es, ?_, ?_⟩
            · simp only [ends_before_times, he0, hok]
              simp only [hle, if_true]
              rfl
            · intro e
              simp only [List.mem_cons, hmem, sectionsOf, List.mem_cons]
              constructor
              · rintro (rfl | ⟨s', hs', he', hle'⟩)
                · exact ⟨s, Or.inl rfl, he0, hle⟩
                · exact ⟨s', Or.inr hs', he', hle'⟩
              · rintro ⟨s', hs' | hs', he', hle'⟩
                · subst hs'
                  rw [he0] at he'
                  exact Or.inl (Option.some.inj he').symm
                · exact Or.inr ⟨s', hs', he', hle'⟩
          · refine ⟨es, ?_, ?_⟩
            · simp only [ends_before_times, he0, hok]
              simp only [hle, if_false]
              rfl
            · intro e
              simp only [hmem, sectionsOf, List.mem_cons]
              constructor
              · rintro ⟨s', hs', he', hle'⟩
                exact ⟨s', Or.inr hs', he', hle'⟩
              · rintro ⟨s', hs' | hs', he', hle'⟩
                · subst hs'
                  rw [he0] at he'
                  rw [Option.some.inj he'] at hle
                  exact absurd hle' hle
                · exact ⟨s', hs', he', hle'⟩

theorem starts_after_mem (t : ℚ) (children : List LogChild) :
    ∀ x : ℚ, (x ∈ starts_after_times children t ↔
      ∃ s ∈ sectionsOf children, s.start_time = x ∧ t ≤ x) := by
  induction children with
  | nil => simp [starts_after_times, sectionsOf]
  | cons c rest ih =>
      cases c with
      | msg m =>
          intro x
          simpa [starts_after_times, sectionsOf] using ih x
      | sec s =>
          intro x
          by_cases hle : t ≤ s.start_time
          · simp only [starts_after_times, hle, if_true, List.mem_cons,
              sectionsOf, ih]
            constructor
            · rintro (rfl | ⟨s', hs', hx, hle'⟩)
              · exact ⟨s, Or.inl rfl, rfl, hle⟩
              · exact ⟨s', Or.inr hs', hx, hle'⟩
            · rintro ⟨s', hs' | hs', hx, hle'⟩
              · subst hs'; exact Or.inl hx.symm
              · exact Or.inr ⟨s', hs', hx, hle'⟩
          · simp only [starts_after_times, hle, if_false, sectionsOf,
              List.mem_cons, ih]
            constructor
            · rintro ⟨s', hs', hx, hle'⟩
              exact ⟨s', Or.inr hs', hx, hle'⟩
            · rintro ⟨s', hs' | hs', hx, hle'⟩
              · subst hs'; subst hx; exact absurd hle' hle
              · exact ⟨s', hs', hx, hle'⟩

/-- C3: for every event run drawn by the annotation renderer, the
available horizontal span runs from `time_to_x` of the latest `end_time`
among sibling sections ending at or before the run's first event (the
parent's `start_time` when none does) to `time_to_x` of the earliest
`start_time` among sibling sections starting at or after the run's last
event (the parent's `end_time` when none does). -/
theorem c3_annotation_span (self : TimelineVisualizer)
    (first_event : LogMessage) (rest : List LogMessage)
    (parent_section : LogSection)
    (hsib : ∀ s ∈ sectionsOf parent_section.children, s.end_time.isSome)
    (pe : ℚ) (hpe : parent_section.end_time = some pe) :
    ∃ L R,
      self.annotation_bounds (first_event :: rest) parent_section =
        .ok (self.time_to_x L, self.time_to_x R) ∧
      is_left_bound parent_section first_event.timestamp L ∧
      is_right_bound parent_section
        ((first_event :: rest).getLast (List.cons_ne_nil _ _)).timestamp
        R := by
  obtain ⟨es, hok, hmem⟩ :=
    ends_before_ok first_event.timestamp parent_section.children hsib
  have hL : is_left_bound parent_section first_event.timestamp
      (pymax es parent_section.start_time) := by
    rcases pymax_spec es parent_section.start_time with ⟨hnil, hval⟩ |
      ⟨hmm, hub⟩
    · left
      refine ⟨?_, hval⟩
      intro s hs e he hle
      have : e ∈ es := (hmem e).mpr ⟨s, hs, he, hle⟩
      rw [hnil] at this
      exact absurd this (List.not_mem_nil e)
    · right
      refine ⟨?_, ?_⟩
      · obtain ⟨s, hs, he, hle⟩ :=
          (hmem (pymax es parent_section.start_time)).mp hmm
        exact ⟨s, hs, he, hle⟩
      · intro s hs e he hle
        exact hub e ((hmem e).mpr ⟨s, hs, he, hle⟩)
  set t1 := ((first_event :: rest).getLast (List.cons_ne_nil _ _)).timestamp
    with ht1
  rcases pymin_spec (starts_after_times parent_section.children t1)
      parent_section.end_time with ⟨hnil, hval⟩ | ⟨m, hval, hmm, hlb⟩
  · refine ⟨pymax es parent_section.start_time, pe, ?_, hL, ?_⟩
    · rw [hpe] at hval
      simp only [TimelineVisualizer.annotation_bounds, hok, ← ht1, hpe,
        hval]
      rfl
    · left
      refine ⟨?_, hpe⟩
      intro s hs hle
      have : s.start_time ∈ starts_after_times parent_section.children t1 :=
        (starts_after_mem t1 parent_section.children s.start_time).mpr
          ⟨s, hs, rfl, hle⟩
      rw [hnil] at this
      exact absurd this (List.not_mem_nil _)
  · refine ⟨pymax es parent_section.start_time, m, ?_, hL, ?_⟩
    · simp only [TimelineVisualizer.annotation_bounds, hok, ← ht1, hval]
      rfl
    · right
      refine ⟨?_, ?_⟩
      · obtain ⟨s, hs, he, hle⟩ :=
          (starts_after_mem t1 parent_section.children m).mp hmm
        exact ⟨s, hs, he, hle⟩
      · intro s hs hle
        exact hlb s.start_time
          ((starts_after_mem t1 parent_section.children s.start_time).mpr
            ⟨s, hs, rfl, hle⟩)

theorem c3_witness :
    (∀ s ∈ sectionsOf parentC3.children, s.end_time.isSome) ∧
      parentC3.end_time = some 10 ∧
      ∃ L R,
        vizUp.annotation_bounds [⟨3, " hi "⟩] parentC3 =
          .ok (vizUp.time_to_x L, vizUp.time_to_x R) ∧
        is_left_bound parentC3 (3 : ℚ) L ∧
        is_right_bound parentC3
          (([(⟨3, " hi "⟩ : LogMessage)].getLast
            (List.cons_ne_nil _ _)).timestamp) R :=
  ⟨by decide, by decide,
    c3_annotation_span vizUp ⟨3, " hi "⟩ [] parentC3 (by decide) 10
      (by decide)⟩

theorem annotation_loop_getElem (self : TimelineVisualizer)
    (events : List LogMessage) :
    ∀ (i j : ℕ), j < events.length →
      ∀ (xs margin bw acy ah pby ph pw rw : ℚ) (depth : ℕ) (hidb : Bool),
        (self.annotation_loop i events xs margin bw acy ah pby ph pw rw
            depth hidb)[3 * j]? =
          some (.rect (xs + ((i + j : ℕ) : ℚ) * (bw + margin) + bw / 2)
            acy 0 bw ah (0.4, 0.6, 0.8)) := by
  induction events with
  | nil =>
      intro i j h
      simp at h
  | cons e tail ih =>
      intro i j hj xs margin bw acy ah pby ph pw rw depth hidb
      cases j with
      | zero =>
          simp [TimelineVisualizer.annotation_loop]
      | succ j' =>
          have h3 : 3 * (j' + 1) = 3 * j' + 1 + 1 + 1 := by ring
          have harith : i + 1 + j' = i + (j' + 1) := by omega
          rw [h3]
          simp only [TimelineVisualizer.annotation_loop, List.cons_append,
            List.nil_append, List.getElem?_cons_succ]
          rw [← harith]
          exact ih (i + 1) j' (by simpa using hj) xs margin bw acy ah pby
            ph pw rw depth hidb

theorem annotation_row_geometry_fst (self : TimelineVisualizer)
    (depth : ℕ) (pby pw bwv rw : ℚ) (hidb : Bool) :
    (self.annotation_row_geometry depth pby pw bwv rw hidb).1 =
      pby + ((if hidb then
          self.get_section_rect_height_depth_based rw depth
        else self.get_section_rect_height_aspect_ratio_based pw) * 1.5) *
        self.build_direction_factor := by
  cases hidb <;> simp [TimelineVisualizer.annotation_row_geometry]

/-- C4: for a run of `n` events with available width `W = xe - xs`, the
renderer uses `margin = 0.01 * W` and per-box width
`(W - margin * (n - 1)) / n`, these satisfy
`n * box_width + (n - 1) * margin = W` exactly, and every drawn
annotation box of the run has that same width. -/
theorem c4_annotation_packing (self : TimelineVisualizer)
    (seq : List LogMessage) (parent_section : LogSection) (depth : ℕ)
    (pcy pw ph rw : ℚ) (hidb : Bool) (xs xe : ℚ)
    (hb : self.annotation_bounds seq parent_section = .ok (xs, xe))
    (hne : seq ≠ []) :
    annotation_margin (xe - xs) = 0.01 * (xe - xs) ∧
      (seq.length : ℚ) * annotation_rect_width (xe - xs) seq.length +
        ((seq.length : ℚ) - 1) * annotation_margin (xe - xs) = xe - xs ∧
      ∃ cmds,
        self.draw_event_sequence_annotations seq parent_section depth pcy
            pw ph rw hidb = .ok cmds ∧
        ∀ j, j < seq.length → ∃ cx cy ah color,
          cmds[3 * j]? =
            some (.rect cx cy 0
              (annotation_rect_width (xe - xs) seq.length) ah color) := by
  have hn0 : ((seq.length : ℚ)) ≠ 0 := by
    have : 0 < seq.length := List.length_pos.mpr hne
    exact_mod_cast this.ne'
  refine ⟨rfl, ?_, ?_⟩
  · unfold annotation_rect_width annotation_margin
    field_simp
    ring
  · simp only [TimelineVisualizer.draw_event_sequence_annotations, hb]
    refine ⟨_, rfl, ?_⟩
    intro j hj
    rw [annotation_loop_getElem self seq 0 j hj]
    exact ⟨_, _, _, _, rfl⟩

theorem c4_witness :
    vizUp.annotation_bounds [⟨1, "a"⟩, ⟨2, "b"⟩] parentC4 = .ok (0, 8) ∧
      (2 : ℚ) * annotation_rect_width 8 2 +
        ((2 : ℚ) - 1) * annotation_margin 8 = 8 := by
  refine ⟨by with_unfolding_all decide, ?_⟩
  have h := (c4_annotation_packing vizUp [⟨1, "a"⟩, ⟨2, "b"⟩] parentC4 0 0
    8 2 8 false 0 8 (by with_unfolding_all decide) (by decide)).2.1
  simpa using h

theorem c5_counterexample :
    vizUp.draw_event_sequence_annotations [mC5] parentC5 0 0 4 1 4 false =
      .ok [Command.rect 2 2 0 4 1 (0.4, 0.6, 0.8),
           Command.text "e" 2 2 0.01 4 1 (1, 1, 0.8),
           Command.seg 2 2 1 1 (4 / 1000) (0.6, 0.6, 0.6)] ∧
    (2 : ℚ) ≠ (0 + (1 / 2) * vizUp.build_direction_factor) +
      (vizUp.get_section_rect_height_depth_based 4 0 * 1.5) *
        vizUp.build_direction_factor := by
  with_unfolding_all decide

/-- C5 (amended): the annotation row's vertical center sits at the
parent's build-side edge offset by 1.5 times the section-height formula
of the *active* sizing mode: the depth-based formula when depth-based
sizing is active, the aspect-ratio-based formula (parent width / 4) when
aspect-ratio sizing is active. -/
theorem c5_row_offset_mode (self : TimelineVisualizer)
    (seq : List LogMessage) (parent_section : LogSection) (depth : ℕ)
    (pcy pw ph rw : ℚ) (hidb : Bool) (xs xe : ℚ)
    (hb : self.annotation_bounds seq parent_section = .ok (xs, xe)) :
    ∃ cmds,
      self.draw_event_sequence_annotations seq parent_section depth pcy pw
          ph rw hidb = .ok cmds ∧
      ∀ j, j < seq.length → ∃ cx bw ah color,
        cmds[3 * j]? =
          some (.rect cx
            ((pcy + (ph / 2) * self.build_direction_factor) +
              ((if hidb then
                  self.get_section_rect_height_depth_based rw depth
                else self.get_section_rect_height_aspect_ratio_based pw) *
                1.5) * self.build_direction_factor)
            0 bw ah color) := by
  simp only [TimelineVisualizer.draw_event_sequence_annotations, hb]
  refine ⟨_, rfl, ?_⟩
  intro j hj
  rw [annotation_loop_getElem self seq 0 j hj,
    annotation_row_geometry_fst]
  exact ⟨_, _, _, _, rfl⟩

theorem c5_witness :
    vizUp.annotation_bounds [mC5] parentC5 = .ok (0, 4) ∧
      ∃ cmds,
        vizUp.draw_event_sequence_annotations [mC5] parentC5 0 0 4 1 4
            false = .ok cmds ∧
        ∀ j, j < [mC5].length → ∃ cx bw ah color,
          cmds[3 * j]? =
            some (.rect cx
              ((0 + ((1 : ℚ) / 2) * vizUp.build_direction_factor) +
                ((if false then
                    vizUp.get_section_rect_height_depth_based 4 0
                  else vizUp.get_section_rect_height_aspect_ratio_based 4) *
                  1.5) * vizUp.build_direction_factor)
              0 bw ah color) :=
  ⟨by with_unfolding_all decide,
    c5_row_offset_mode vizUp [mC5] parentC5 0 0 4 1 4 false 0 4
      (by with_unfolding_all decide)⟩

mutual

theorem process_section_flags_all (self : TimelineVisualizer) :
    ∀ (sect : LogSection) (b : Bool),
      ∀ x ∈ self.process_section_flags sect b, x = b
  | .mk nm st none cs, b => by
      intro x hx
      simpa [TimelineVisualizer.process_section_flags] using hx
  | .mk nm st (some et) cs, b => by
      intro x hx
      simp only [TimelineVisualizer.process_section_flags, List.mem_cons,
        List.mem_append] at hx
      rcases hx with rfl | rfl | h | h
      · rfl
      · rfl
      · exact List.eq_of_mem_replicate h
      · exact process_children_flags_all self cs b x h

theorem process_children_flags_all (self : TimelineVisualizer) :
    ∀ (children : List LogChild) (b : Bool),
      ∀ x ∈ self.process_children_flags children b, x = b
  | [], b => by simp [TimelineVisualizer.process_children_flags]
  | .sec c :: rest, b => by
      intro x hx
      simp only [TimelineVisualizer.process_children_flags,
        List.mem_append] at hx
      rcases hx with h | h
      · exact process_section_flags_all self c b x h
      · exact process_children_flags_all self rest b x h
  | .msg m :: rest, b => by
      intro x hx
      simp only [TimelineVisualizer.process_children_flags] at hx
      exact process_children_flags_all self rest b x hx

end

/-- C10: the sizing-mode flag is uniform across a traversal: every
`process_section`, `draw_section_rect` and
`draw_event_sequence_annotations` call records the flag value the entry
call received, and a pass started through `generate` records `false`
(aspect-ratio-based) everywhere. -/
theorem c10_sizing_mode_uniform :
    (∀ (self : TimelineVisualizer) (sect : LogSection) (b : Bool),
        ∀ x ∈ self.process_section_flags sect b, x = b) ∧
      ∀ (self : TimelineVisualizer) (root_section : LogSection),
        ∀ x ∈ self.generate_flags root_section, x = false :=
  ⟨fun self sect b => process_section_flags_all self sect b,
   fun self root_section =>
     process_section_flags_all self root_section false⟩

theorem c10_witness : (false : Bool) = false :=
  c10_sizing_mode_uniform.2 vizUp rootC10 false
    (by with_unfolding_all decide)
